import Mathlib

/-!
Verification of the core logic of a Telegram bot client library written in Go
(packages `bot`: files `bot.go` and `command.go`).

The embedding is shallow:

* Go strings are modelled as `List Char` (`GoStr`); the Go standard-library
  string functions used by the code (`strings.HasPrefix`, `strings.TrimPrefix`,
  `strings.Fields`, `strings.Split` with a one-character separator) are
  re-implemented structurally over `List Char`.  `unicode.IsSpace` is modelled
  on its Latin-1 subset, which covers every input the code's callers produce.
* The Go `map[string]Command` of `CommandRegistry` is modelled as an
  association list updated in place (`updateAssoc`), which matches Go map
  assignment semantics on lists whose keys are distinct.
* Handlers (`type Command func(context.Context, *Bot, *Message)`) are opaque
  values of a type parameter `H`; an execution is recorded as a trace entry
  `(handler, message)` instead of being run for its side effects.
* The network is abstracted: `makeRequest` consumes a `WireResult` describing
  what happened on the wire (transport failure at each stage, or a decoded
  response envelope), exactly mirroring the sequence of early returns in the
  Go function.  `Start`'s polling loop consumes a finite script of
  `IterationInput`s, each describing the cancellation state and fetch outcome
  of one loop iteration.
-/

set_option autoImplicit false

namespace TGBot

/-- Go strings, modelled as their character sequences. -/
abbrev GoStr := List Char

/-- Model of Go `unicode.IsSpace` restricted to its Latin-1 cases:
'\t', '\n', '\v', '\f', '\r', ' ', U+0085 (NEL), U+00A0 (NBSP). -/
def isSpaceGo (c : Char) : Bool :=
  c == ' ' || c == '\t' || c == '\n' || c == (Char.ofNat 11) || c == (Char.ofNat 12) ||
  c == '\r' || c == (Char.ofNat 133) || c == (Char.ofNat 160)

/-- Model of Go `strings.HasPrefix s p`. -/
def goStartsWith : GoStr → GoStr → Bool
  | _, [] => true
  | [], _ :: _ => false
  | c :: s, d :: p => c == d && goStartsWith s p

/-- Model of Go `strings.TrimPrefix s p`: removes one leading occurrence of
`p` when present, otherwise returns `s` unchanged. -/
def goTrimLeading (s p : GoStr) : GoStr :=
  if goStartsWith s p then s.drop p.length else s

/-- Accumulator-based worker for `goFields`: `acc` holds the characters of the
current field in reverse. -/
def fieldsAux : GoStr → GoStr → List GoStr
  | acc, [] => if acc.isEmpty then [] else [acc.reverse]
  | acc, c :: rest =>
    if isSpaceGo c then
      if acc.isEmpty then fieldsAux [] rest else acc.reverse :: fieldsAux [] rest
    else fieldsAux (c :: acc) rest

/-- Model of Go `strings.Fields`: splits on runs of whitespace and never
returns empty fields. -/
def goFields (s : GoStr) : List GoStr :=
  fieldsAux [] s

/-- Accumulator-based worker for `goSplit`. -/
def splitAux (sep : Char) : GoStr → GoStr → List GoStr
  | acc, [] => [acc.reverse]
  | acc, c :: rest =>
    if c == sep then acc.reverse :: splitAux sep [] rest else splitAux sep (c :: acc) rest

/-- Model of Go `strings.Split s sep` for a one-character separator `sep`;
always returns at least one (possibly empty) piece. -/
def goSplit (s : GoStr) (sep : Char) : List GoStr :=
  splitAux sep [] s

/-- Model of the Go struct `User` (`bot` package). -/
structure User where
  id : Int
  firstName : GoStr
  lastName : GoStr
  username : GoStr
deriving DecidableEq

/-- Model of the Go struct `Chat`. -/
structure Chat where
  id : Int
  type : GoStr
  title : GoStr
  username : GoStr
deriving DecidableEq

/-- Model of the Go struct `Message`.  The Go field `From` (a nullable
pointer `*User`) is `fromUser : Option User`; `Text` is `text`. -/
structure Message where
  messageID : Int
  fromUser : Option User
  chat : Chat
  date : Int
  text : GoStr
deriving DecidableEq

/-- Model of the Go struct `Update`. -/
structure Update where
  updateID : Int
  message : Option Message
deriving DecidableEq

/-- Model of the Go struct `CommandRegistry`: the underlying
`map[string]Command` is an association list from command name to handler.
Go map semantics (one binding per key) correspond to lists whose keys are
pairwise distinct, which `updateAssoc` preserves. -/
structure CommandRegistry (H : Type) where
  registry : List (GoStr × H)
deriving DecidableEq

/-- Model of Go `NewCommandRegistry`: an empty table. -/
def NewCommandRegistry {H : Type} : CommandRegistry H :=
  ⟨[]⟩

/-- Model of a Go map assignment `m[k] = v`: replace the binding of `k` when
present, otherwise append a fresh binding. -/
def updateAssoc {H : Type} : List (GoStr × H) → GoStr → H → List (GoStr × H)
  | [], k, v => [(k, v)]
  | (k', v') :: rest, k, v =>
    if k' == k then (k, v) :: rest else (k', v') :: updateAssoc rest k v

/-- Model of Go `CommandRegistry.Register`: `cr.registry[command] = action`. -/
def Register {H : Type} (cr : CommandRegistry H) (command : GoStr) (action : H) :
    CommandRegistry H :=
  ⟨updateAssoc cr.registry command action⟩

/-- Model of a Go map lookup on the association list: the value of the first
binding whose key equals the one sought (`updateAssoc` keeps keys unique, so
at most one binding can match). -/
def lookupAssoc {H : Type} : List (GoStr × H) → GoStr → Option H
  | [], _ => none
  | (k', v') :: rest, k => if k' == k then some v' else lookupAssoc rest k

/-- Model of the Go map lookup `action, exists := cr.registry[command]`
returning `some action` exactly when `exists`. -/
def lookupCmd {H : Type} (cr : CommandRegistry H) (command : GoStr) : Option H :=
  lookupAssoc cr.registry command

/-- Number of bindings a table holds for the key `k`. -/
def countKey {H : Type} (l : List (GoStr × H)) (k : GoStr) : Nat :=
  (l.filter (fun p => p.1 == k)).length

/-- The command marker `/` of `command.go`. -/
def marker : GoStr :=
  ['/']

/-- Command-name extraction performed by Go `CommandRegistry.Execute` (lines
26-37 of `command.go`): require the `/` marker, tokenize on whitespace,
require at least one token, strip the leading marker from the first token and
drop any trailing `@selector` suffix.  Returns `none` exactly on the early
`return false` paths before the table lookup. -/
def extractedName (text : GoStr) : Option GoStr :=
  if !(goStartsWith text marker) then none
  else
    let parts := goFields text
    if parts = [] then none
    else some ((goSplit (goTrimLeading (parts.headD []) marker) '@').headD [])

/-- Table-lookup half of Go `CommandRegistry.Execute` (lines 39-45): the
handler that would be invoked for `text`, or `none` when `Execute` returns
`false`. -/
def findCommandAction {H : Type} (cr : CommandRegistry H) (text : GoStr) : Option H :=
  match extractedName text with
  | none => none
  | some command => lookupCmd cr command

/-- Model of Go `CommandRegistry.Execute`: the returned `Bool`, paired with
the trace of handler invocations `(handler, message)` the call performs (the
Go code runs `action(ctx, bot, msg)` once on the success path, passing the
original message). -/
def Execute {H : Type} (cr : CommandRegistry H) (msg : Message) :
    Bool × List (H × Message) :=
  match findCommandAction cr msg.text with
  | none => (false, [])
  | some action => (true, [(action, msg)])

/-- Fixture: a message with the given sender, chat id and text (the remaining
fields are irrelevant to every function under verification). -/
def mkMessage (fromUser : Option User) (chatID : Int) (text : GoStr) : Message :=
  { messageID := 1, fromUser := fromUser, chat := ⟨chatID, [], [], []⟩, date := 0, text := text }

/-- Model of the Go struct `Response` (the generic API envelope);
`result` is the raw JSON payload, kept opaque. -/
structure Response where
  ok : Bool
  result : String
  description : String
deriving DecidableEq

/-- What happened on the wire during one `makeRequest` call, stage by stage:
the Go function returns early on a payload-marshal failure, a
request-construction failure, an HTTP failure from `client.Do`, a body-read
failure, or an envelope-decode failure; otherwise it has a decoded
`Response` envelope in hand. -/
inductive WireResult where
  | marshalErr (e : String)
  | newRequestErr (e : String)
  | doErr (e : String)
  | readErr (e : String)
  | unmarshalErr (e : String)
  | envelope (resp : Response)
deriving DecidableEq

/-- Model of Go `Bot.makeRequest` (`bot.go` lines 39-79): wraps each stage
failure with its message, rejects any decoded envelope with `ok == false` as
an `API error` carrying the envelope's description, and returns the envelope
otherwise. -/
def makeRequest : WireResult → Except String Response
  | .marshalErr e => .error ("error marshaling payload: " ++ e)
  | .newRequestErr e => .error ("error creating request: " ++ e)
  | .doErr e => .error ("error making request: " ++ e)
  | .readErr e => .error ("error reading response: " ++ e)
  | .unmarshalErr e => .error ("error unmarshaling response: " ++ e)
  | .envelope resp =>
    if !resp.ok then .error ("API error: " ++ resp.description) else .ok resp

/-- Model of Go `Bot.getUpdates` (`bot.go` lines 81-98): `makeRequest` for
the `getUpdates` method, then decoding of `resp.Result` into updates; the
JSON decoding of the opaque payload is the injected `parse`. -/
def getUpdates (parse : String → Except String (List Update)) (w : WireResult) :
    Except String (List Update) :=
  match makeRequest w with
  | .error e => .error e
  | .ok resp =>
    match parse resp.result with
    | .error e => .error ("error unmarshaling updates: " ++ e)
    | .ok updates => .ok updates

/-- Model of Go `Bot.SendMessage` (`bot.go` lines 100-108): `makeRequest` for
the `sendMessage` method, discarding the successful envelope. -/
def SendMessage (w : WireResult) : Except String Unit :=
  match makeRequest w with
  | .error e => .error e
  | .ok _ => .ok ()

/-- Model of Go `Bot.GetMe` (`bot.go` lines 110-123): `makeRequest` for the
`getMe` method, then decoding of `resp.Result` into a `User` (the injected
`parse`); on success the Go code only logs the identity. -/
def GetMe (parse : String → Except String User) (w : WireResult) :
    Except String Unit :=
  match makeRequest w with
  | .error e => .error e
  | .ok resp =>
    match parse resp.result with
    | .error e => .error e
    | .ok _ => .ok ()

/-- Whether an `Except` value is an error. -/
def isErr {ε α : Type} : Except ε α → Bool
  | .error _ => true
  | .ok _ => false

/-- The echoed-reply text of `handleMessage`:
`fmt.Sprintf("Recibí tu mensaje: %s", msg.Text)` without its `%s` argument. -/
def echoText : GoStr :=
  ['R','e','c','i','b','í',' ','t','u',' ','m','e','n','s','a','j','e',':',' ']

/-- Observable outcome of one `handleMessage` call.  `fault` is the nil
pointer dereference of `msg.From.FirstName` in the entry log statement;
`delegated` records the value and invocation trace of the command registry's
`Execute`; `dropped` is a command-marker message with no registry configured;
`echoed` records the one `SendMessage(ctx, msg.Chat.ID, response)` call and
whether its failure was logged; `silent` is the empty-text case. -/
inductive HandleResult (H : Type) where
  | fault
  | delegated (executed : Bool) (calls : List (H × Message))
  | dropped
  | echoed (chatID : Int) (text : GoStr) (sendFailureLogged : Bool)
  | silent
deriving DecidableEq

/-- Model of Go `Bot.handleMessage` (`bot.go` lines 125-141).  The entry
`log.Printf` dereferences `msg.From`, so a message without a sender faults
before any routing.  `send` is the environment's outcome for the one
`SendMessage` call of the echo branch (ignored by the other branches). -/
def handleMessage {H : Type} (reg : Option (CommandRegistry H)) (msg : Message)
    (send : Except String Unit) : HandleResult H :=
  match msg.fromUser with
  | none => .fault
  | some _ =>
    if goStartsWith msg.text marker then
      match reg with
      | some cr => .delegated (Execute cr msg).1 (Execute cr msg).2
      | none => .dropped
    else if msg.text = [] then .silent
    else .echoed msg.chat.id (echoText ++ msg.text) (isErr send)

/-- The long-poll wait the `getUpdates` request asks of the server
(`const timeout = 60` in `bot.go`). -/
def timeout : Nat :=
  60

/-- The fixed pause after a failed fetch
(`time.Sleep(3 * time.Second)` in `Start`). -/
def backoffSeconds : Nat :=
  3

/-- Request parameters of a `getUpdates` call: the Go code sends
`{"offset": b.offset, "timeout": timeout}`. -/
structure GetUpdatesParams where
  offset : Int
  timeout : Nat
deriving DecidableEq

/-- The parameters `Bot.getUpdates` puts on the wire when the bot's offset
cursor is `offset`. -/
def getUpdatesParams (offset : Int) : GetUpdatesParams :=
  ⟨offset, timeout⟩

/-- Smallest value of Go's `int` on a 64-bit platform. -/
def int64Min : Int :=
  -9223372036854775808

/-- Largest value of Go's `int` on a 64-bit platform. -/
def int64Max : Int :=
  9223372036854775807

/-- Two's-complement wrap of an integer to the `int64` range: the unique
representative of `n` modulo `2^64` lying in `[-2^63, 2^63)`.  Go's `int`
addition wraps this way on a 64-bit platform. -/
def wrap64 (n : Int) : Int :=
  (n + 9223372036854775808) % 18446744073709551616 - 9223372036854775808

/-- Model of the per-update body of `Start`'s inner `for` loop
(`bot.go` lines 174-183): each update sets `b.offset = update.UpdateID + 1`
in order, the addition performed on Go's `int`, which wraps at `2^63`; the
final offset is the result of the fold. -/
def processBatch (offset : Int) (updates : List Update) : Int :=
  updates.foldl (fun _ u => wrap64 (u.updateID + 1)) offset

/-- The messages the inner `for` loop hands to `go b.handleMessage` for a
batch: one per update whose `Message` pointer is non-nil, in batch order. -/
def dispatched (updates : List Update) : List Message :=
  updates.filterMap (fun u => u.message)

/-- Terminal outcome of `Start`: the wrapped fatal identity-check error
(`fmt.Errorf("error verificando bot: %w", err)`), or the context's
cancellation outcome (`ctx.Err()`), a distinct constructor. -/
inductive StartOutcome where
  | startupError (msg : String)
  | cancelled
deriving DecidableEq

/-- Environment of one iteration of `Start`'s `for`/`select` loop:
whether `ctx.Done()` is already signalled when the `select` runs, the
outcome of the `getUpdates` call issued otherwise, and whether `ctx.Err()`
is non-nil at the point a failed fetch checks it. -/
structure IterationInput where
  doneAtSelect : Bool
  fetch : Except String (List Update)
  errAfterFetch : Bool

/-- What one loop iteration does: return from `Start` (recording whether a
fetch was issued first), or continue with a new offset after sleeping
`sleepSeconds` and handing `toHandle` to handler goroutines. -/
inductive StepResult where
  | ret (outcome : StartOutcome) (fetchIssued : Bool)
  | cont (newOffset : Int) (sleepSeconds : Nat) (toHandle : List Message)
deriving DecidableEq

/-- Model of one iteration of `Start`'s loop (`bot.go` lines 157-185): the
`select` returns `ctx.Err()` when `ctx.Done()` is ready; otherwise the
`default` branch fetches.  A failed fetch returns `ctx.Err()` when the
context was cancelled, else logs, sleeps `backoffSeconds` and continues with
the offset unchanged; a successful fetch advances the offset over the batch
and dispatches its messages. -/
def startStep (offset : Int) (inp : IterationInput) : StepResult :=
  if inp.doneAtSelect then .ret .cancelled false
  else
    match inp.fetch with
    | .error _ =>
      if inp.errAfterFetch then .ret .cancelled true
      else .cont offset backoffSeconds []
    | .ok updates => .cont (processBatch offset updates) 0 (dispatched updates)

/-- Run of `Start`'s polling loop over a finite script of iteration inputs,
threading the offset cursor and counting issued `getUpdates` calls.
`none` means the script ran out with the loop still polling. -/
def startLoop (offset : Int) (fetches : Nat) :
    List IterationInput → Option StartOutcome × Nat
  | [] => (none, fetches)
  | inp :: rest =>
    match startStep offset inp with
    | .ret o issued => (some o, fetches + (if issued then 1 else 0))
    | .cont off _ _ => startLoop off (fetches + 1) rest

/-- Model of Go `Bot.Start` (`bot.go` lines 147-186): a failed `GetMe`
returns the wrapped verification error before any polling; otherwise the
polling loop runs.  `getMe` is the environment's outcome for the one
startup identity check. -/
def Start (getMe : Except String Unit) (offset : Int)
    (inputs : List IterationInput) : Option StartOutcome × Nat :=
  match getMe with
  | .error e => (some (.startupError ("error verificando bot: " ++ e)), 0)
  | .ok _ => startLoop offset 0 inputs

/-- Run of consecutive successful-fetch batches through the offset cursor. -/
def runBatches (offset : Int) (batches : List (List Update)) : Int :=
  batches.foldl processBatch offset

/-- The batches a well-behaved server hands to consecutive iterations:
each batch has strictly ascending ids, all at least the offset the loop
requested it with, and all valid `int64` values whose increment does not
overflow. -/
def BatchesValid : Int → List (List Update) → Prop
  | _, [] => True
  | off, b :: bs =>
    List.Chain' (· < ·) (b.map (fun u => u.updateID)) ∧
    (∀ u ∈ b, off ≤ u.updateID) ∧
    (∀ u ∈ b, int64Min ≤ u.updateID ∧ u.updateID < int64Max) ∧
    BatchesValid (processBatch off b) bs

theorem updateAssoc_cons {H : Type} (k' : GoStr) (v' : H) (rest : List (GoStr × H))
    (k : GoStr) (v : H) :
    updateAssoc ((k', v') :: rest) k v =
      if k' == k then (k, v) :: rest else (k', v') :: updateAssoc rest k v :=
  rfl

theorem updateAssoc_cons_pos {H : Type} (k' : GoStr) (v' : H) (rest : List (GoStr × H))
    (k : GoStr) (v : H) (h : k' = k) :
    updateAssoc ((k', v') :: rest) k v = (k, v) :: rest := by
  rw [updateAssoc_cons, if_pos (beq_iff_eq.mpr h)]

theorem updateAssoc_cons_neg {H : Type} (k' : GoStr) (v' : H) (rest : List (GoStr × H))
    (k : GoStr) (v : H) (h : ¬k' = k) :
    updateAssoc ((k', v') :: rest) k v = (k', v') :: updateAssoc rest k v := by
  rw [updateAssoc_cons, if_neg (fun hb => h (beq_iff_eq.mp hb))]

theorem lookupAssoc_cons {H : Type} (k' : GoStr) (v' : H) (rest : List (GoStr × H))
    (k : GoStr) :
    lookupAssoc ((k', v') :: rest) k = if k' == k then some v' else lookupAssoc rest k :=
  rfl

theorem lookupAssoc_updateAssoc_self {H : Type} (l : List (GoStr × H)) (k : GoStr) (v : H) :
    lookupAssoc (updateAssoc l k v) k = some v := by
  induction l with
  | nil =>
    show lookupAssoc [(k, v)] k = some v
    rw [lookupAssoc_cons, if_pos (beq_iff_eq.mpr rfl)]
  | cons p rest ih =>
    obtain ⟨k', v'⟩ := p
    by_cases h : k' = k
    · rw [updateAssoc_cons_pos k' v' rest k v h, lookupAssoc_cons,
        if_pos (beq_iff_eq.mpr rfl)]
    · rw [updateAssoc_cons_neg k' v' rest k v h, lookupAssoc_cons,
        if_neg (fun hb => h (beq_iff_eq.mp hb))]
      exact ih

theorem countKey_cons_pos {H : Type} (k' : GoStr) (v' : H) (rest : List (GoStr × H))
    (k : GoStr) (h : k' = k) :
    countKey ((k', v') :: rest) k = countKey rest k + 1 := by
  unfold countKey
  rw [List.filter_cons, if_pos (beq_iff_eq.mpr h), List.length_cons]

theorem countKey_cons_neg {H : Type} (k' : GoStr) (v' : H) (rest : List (GoStr × H))
    (k : GoStr) (h : ¬k' = k) :
    countKey ((k', v') :: rest) k = countKey rest k := by
  unfold countKey
  rw [List.filter_cons, if_neg (fun hb => h (beq_iff_eq.mp hb))]

theorem countKey_eq_zero {H : Type} (l : List (GoStr × H)) (k : GoStr)
    (h : k ∉ l.map Prod.fst) : countKey l k = 0 := by
  induction l with
  | nil => rfl
  | cons p rest ih =>
    obtain ⟨k', v'⟩ := p
    simp only [List.map_cons, List.mem_cons, not_or] at h
    rw [countKey_cons_neg k' v' rest k (fun e => h.1 e.symm)]
    exact ih h.2

theorem countKey_updateAssoc {H : Type} (l : List (GoStr × H)) (k : GoStr) (v : H)
    (hnodup : (l.map Prod.fst).Nodup) : countKey (updateAssoc l k v) k = 1 := by
  induction l with
  | nil =>
    show countKey [(k, v)] k = 1
    rw [countKey_cons_pos k v [] k rfl]
    rfl
  | cons p rest ih =>
    obtain ⟨k', v'⟩ := p
    simp only [List.map_cons, List.nodup_cons] at hnodup
    by_cases h : k' = k
    · rw [updateAssoc_cons_pos k' v' rest k v h, countKey_cons_pos k v rest k rfl,
        countKey_eq_zero rest k (h ▸ hnodup.1)]
    · rw [updateAssoc_cons_neg k' v' rest k v h, countKey_cons_neg k' v' _ k h]
      exact ih hnodup.2

theorem mem_keys_updateAssoc {H : Type} (l : List (GoStr × H)) (k x : GoStr) (v : H)
    (hx : x ∈ (updateAssoc l k v).map Prod.fst) : x ∈ l.map Prod.fst ∨ x = k := by
  induction l with
  | nil =>
    right
    rw [show updateAssoc ([] : List (GoStr × H)) k v = [(k, v)] from rfl] at hx
    simpa using hx
  | cons p rest ih =>
    obtain ⟨k', v'⟩ := p
    by_cases h : k' = k
    · rw [updateAssoc_cons_pos k' v' rest k v h, List.map_cons, List.mem_cons] at hx
      rcases hx with hx | hx
      · exact Or.inr hx
      · exact Or.inl (List.mem_cons_of_mem _ hx)
    · rw [updateAssoc_cons_neg k' v' rest k v h, List.map_cons, List.mem_cons] at hx
      rcases hx with hx | hx
      · exact Or.inl (by rw [List.map_cons, List.mem_cons]; exact Or.inl hx)
      · rcases ih hx with hm | he
        · exact Or.inl (by rw [List.map_cons, List.mem_cons]; exact Or.inr hm)
        · exact Or.inr he

theorem nodup_keys_updateAssoc {H : Type} (l : List (GoStr × H)) (k : GoStr) (v : H)
    (h : (l.map Prod.fst).Nodup) : ((updateAssoc l k v).map Prod.fst).Nodup := by
  induction l with
  | nil =>
    rw [show updateAssoc ([] : List (GoStr × H)) k v = [(k, v)] from rfl]
    simp
  | cons p rest ih =>
    obtain ⟨k', v'⟩ := p
    simp only [List.map_cons, List.nodup_cons] at h
    by_cases e : k' = k
    · rw [updateAssoc_cons_pos k' v' rest k v e, List.map_cons, List.nodup_cons]
      exact ⟨e ▸ h.1, h.2⟩
    · rw [updateAssoc_cons_neg k' v' rest k v e, List.map_cons, List.nodup_cons]
      refine ⟨fun hx => ?_, ih h.2⟩
      rcases mem_keys_updateAssoc rest k k' v hx with hm | he
      · exact h.1 hm
      · exact e he

theorem lookupCmd_register_self {H : Type} (cr : CommandRegistry H) (name : GoStr) (a : H) :
    lookupCmd (Register cr name a) name = some a := by
  unfold lookupCmd Register
  exact lookupAssoc_updateAssoc_self cr.registry name a

/-- C2: with `"start"` registered, `Execute` on `"/start"`, `"/start@mybot"`
or `"/start arg1 arg2"` returns `true` and invokes the registered handler
exactly once, passing the original message unchanged; the `@selector` suffix
is dropped by splitting the first token on `@` and keeping the part before
it. -/
theorem C2_execute_start (H : Type) (cr : CommandRegistry H) (hdl : H)
    (hreg : lookupCmd cr ['s','t','a','r','t'] = some hdl) (msg : Message)
    (htext : msg.text = ['/','s','t','a','r','t'] ∨
      msg.text = ['/','s','t','a','r','t','@','m','y','b','o','t'] ∨
      msg.text = ['/','s','t','a','r','t',' ','a','r','g','1',' ','a','r','g','2']) :
    Execute cr msg = (true, [(hdl, msg)]) := by
  have e1 : extractedName ['/','s','t','a','r','t'] = some ['s','t','a','r','t'] := by decide
  have e2 : extractedName ['/','s','t','a','r','t','@','m','y','b','o','t'] =
      some ['s','t','a','r','t'] := by decide
  have e3 : extractedName ['/','s','t','a','r','t',' ','a','r','g','1',' ','a','r','g','2'] =
      some ['s','t','a','r','t'] := by decide
  have key : findCommandAction cr msg.text = some hdl := by
    unfold findCommandAction
    rcases htext with h | h | h <;> rw [h]
    · rw [e1]; exact hreg
    · rw [e2]; exact hreg
    · rw [e3]; exact hreg
  unfold Execute
  rw [key]

theorem C2_execute_start_witness :
    Execute (Register (NewCommandRegistry (H := Nat)) ['s','t','a','r','t'] 7)
      (mkMessage none 5 ['/','s','t','a','r','t',' ','a','r','g','1',' ','a','r','g','2']) =
    (true, [(7, mkMessage none 5
      ['/','s','t','a','r','t',' ','a','r','g','1',' ','a','r','g','2'])]) :=
  C2_execute_start Nat _ 7 (by decide) _ (Or.inr (Or.inr rfl))

/-- C3 counterexample: the claim quantifies over every command table, but
`strings.Fields "/"` yields the token `"/"`, the extracted command is the
empty string, and a table in which the empty string is registered makes
`Execute` on the marker-only message `"/"` return `true` and invoke that
handler — not `false` with no handler invoked. -/
theorem C3_counterexample :
    Execute (Register (NewCommandRegistry (H := Nat)) [] 7) (mkMessage none 5 ['/']) =
      (true, [(7, mkMessage none 5 ['/'])]) ∧
    Execute (Register (NewCommandRegistry (H := Nat)) [] 7) (mkMessage none 5 ['/']) ≠
      (false, []) := by decide

theorem fieldsAux_all_space (ws : GoStr) (hws : ∀ c ∈ ws, isSpaceGo c) :
    ∀ acc : GoStr, fieldsAux acc ws = if acc.isEmpty then [] else [acc.reverse] := by
  induction ws with
  | nil => intro acc; rfl
  | cons c rest ih =>
    intro acc
    have hc : isSpaceGo c = true := hws c (by simp)
    have hrest : ∀ d ∈ rest, isSpaceGo d = true := fun d hd => hws d (by simp [hd])
    simp only [fieldsAux, hc, if_true]
    rw [ih hrest []]
    by_cases ha : acc.isEmpty <;> simp [ha]

theorem extractedName_marker_space (ws : GoStr) (hws : ∀ c ∈ ws, isSpaceGo c) :
    extractedName ('/' :: ws) = some [] := by
  have hf : goFields ('/' :: ws) = [['/']] := by
    unfold goFields
    simp only [fieldsAux, show isSpaceGo '/' = false from rfl, if_false]
    rw [fieldsAux_all_space ws hws ['/']]
    rfl
  have hsw : goStartsWith ('/' :: ws) marker = true := by
    unfold marker goStartsWith
    simp [goStartsWith]
  unfold extractedName
  rw [hsw, hf]
  rfl

/-- C3 (amended): `Execute` returns `false` and invokes no handler, for every
command table, when the text is empty or does not start with the marker `/`;
for the marker-only texts (`"/"` alone or followed only by whitespace) the
extracted command name is the empty string, so this holds provided the empty
string is not registered in the table. -/
theorem C3_execute_rejects (H : Type) (cr : CommandRegistry H) (msg : Message) :
    (msg.text = [] → Execute cr msg = (false, [])) ∧
    (goStartsWith msg.text marker = false → Execute cr msg = (false, [])) ∧
    (lookupCmd cr [] = none → ∀ ws : GoStr, (∀ c ∈ ws, isSpaceGo c) →
      msg.text = '/' :: ws → Execute cr msg = (false, [])) := by
  refine ⟨?_, ?_, ?_⟩
  · intro h
    unfold Execute findCommandAction
    rw [h, show extractedName [] = none from by decide]
  · intro h
    have e : extractedName msg.text = none := by
      unfold extractedName
      rw [h]
      rfl
    unfold Execute findCommandAction
    rw [e]
  · intro hempty ws hws h
    have e : findCommandAction cr msg.text = none := by
      unfold findCommandAction
      rw [h, extractedName_marker_space ws hws]
      exact hempty
    unfold Execute
    rw [e]

theorem C3_execute_rejects_witness :
    Execute (NewCommandRegistry (H := Nat)) (mkMessage none 5 []) = (false, []) ∧
    Execute (NewCommandRegistry (H := Nat)) (mkMessage none 5 ['h','i']) = (false, []) ∧
    Execute (NewCommandRegistry (H := Nat)) (mkMessage none 5 ['/']) = (false, []) ∧
    Execute (NewCommandRegistry (H := Nat)) (mkMessage none 5 ['/',' ',' ']) = (false, []) :=
  ⟨(C3_execute_rejects Nat _ _).1 rfl,
   (C3_execute_rejects Nat _ _).2.1 (by decide),
   (C3_execute_rejects Nat _ _).2.2 rfl [] (by decide) rfl,
   (C3_execute_rejects Nat _ _).2.2 rfl [' ', ' '] (by decide) rfl⟩

/-- C9: registering the same name twice in sequence leaves exactly one
binding for that name in the table (registration is an overwrite and never a
duplicate error), and a subsequent `Execute` of that command invokes only the
second handler, with the original message. -/
theorem C9_register_overwrite (H : Type) (cr : CommandRegistry H)
    (hnodup : (cr.registry.map Prod.fst).Nodup) (name : GoStr) (h1 h2 : H)
    (msg : Message) (hname : extractedName msg.text = some name) :
    countKey (Register (Register cr name h1) name h2).registry name = 1 ∧
    lookupCmd (Register (Register cr name h1) name h2) name = some h2 ∧
    Execute (Register (Register cr name h1) name h2) msg = (true, [(h2, msg)]) := by
  have hlook : lookupCmd (Register (Register cr name h1) name h2) name = some h2 :=
    lookupCmd_register_self _ name h2
  refine ⟨?_, hlook, ?_⟩
  · exact countKey_updateAssoc _ name h2
      (nodup_keys_updateAssoc cr.registry name h1 hnodup)
  · have e : findCommandAction (Register (Register cr name h1) name h2) msg.text =
        some h2 := by
      unfold findCommandAction
      rw [hname]
      exact hlook
    unfold Execute
    rw [e]

theorem C9_register_overwrite_witness :
    countKey (Register (Register (NewCommandRegistry (H := Nat)) ['s','t','a','r','t'] 1)
      ['s','t','a','r','t'] 2).registry ['s','t','a','r','t'] = 1 ∧
    lookupCmd (Register (Register (NewCommandRegistry (H := Nat)) ['s','t','a','r','t'] 1)
      ['s','t','a','r','t'] 2) ['s','t','a','r','t'] = some 2 ∧
    Execute (Register (Register (NewCommandRegistry (H := Nat)) ['s','t','a','r','t'] 1)
      ['s','t','a','r','t'] 2) (mkMessage none 5 ['/','s','t','a','r','t']) =
      (true, [(2, mkMessage none 5 ['/','s','t','a','r','t'])]) :=
  C9_register_overwrite Nat NewCommandRegistry (by simp [NewCommandRegistry])
    ['s','t','a','r','t'] 1 2 (mkMessage none 5 ['/','s','t','a','r','t']) (by decide)

/-- C10: `handleMessage` dereferences `msg.From` in its entry log statement
before any routing or echo decision, so it faults on every message whose
sender field is absent, and never faults when the sender is present —
`handleMessage` is total exactly under the precondition `From ≠ nil`. -/
theorem C10_handleMessage_from_fault (H : Type) (reg : Option (CommandRegistry H))
    (msg : Message) (send : Except String Unit) :
    (msg.fromUser = none → handleMessage reg msg send = HandleResult.fault) ∧
    (∀ u : User, msg.fromUser = some u → handleMessage reg msg send ≠ HandleResult.fault) := by
  constructor
  · intro h
    unfold handleMessage
    rw [h]
  · intro u h
    by_cases hc : goStartsWith msg.text marker = true
    · cases reg with
      | none => simp [handleMessage, h, hc]
      | some cr => simp [handleMessage, h, hc]
    · have hc' : goStartsWith msg.text marker = false := by
        cases hg : goStartsWith msg.text marker
        · rfl
        · exact absurd hg hc
      by_cases ht : msg.text = []
      · simp [handleMessage, h, ht, show goStartsWith [] marker = false from rfl]
      · simp [handleMessage, h, hc', ht]

theorem C10_handleMessage_from_fault_witness :
    handleMessage (none : Option (CommandRegistry Nat)) (mkMessage none 5 ['h','i'])
      (Except.ok ()) = HandleResult.fault ∧
    handleMessage (none : Option (CommandRegistry Nat))
      (mkMessage (some ⟨1, ['A'], [], []⟩) 5 ['h','i']) (Except.ok ()) ≠ HandleResult.fault :=
  ⟨(C10_handleMessage_from_fault Nat none (mkMessage none 5 ['h','i']) (Except.ok ())).1 rfl,
   (C10_handleMessage_from_fault Nat none (mkMessage (some ⟨1, ['A'], [], []⟩) 5 ['h','i'])
      (Except.ok ())).2 ⟨1, ['A'], [], []⟩ rfl⟩

/-- C7 counterexample: the claim quantifies over every message, but a
non-command, non-empty message whose sender field is absent makes
`handleMessage` fault on the `msg.From.FirstName` dereference instead of
sending the single echo reply the claim requires. -/
theorem C7_counterexample :
    handleMessage (none : Option (CommandRegistry Nat)) (mkMessage none 5 ['h','o','l','a'])
      (Except.ok ()) = HandleResult.fault ∧
    (HandleResult.fault : HandleResult Nat) ≠
      HandleResult.echoed 5 (echoText ++ ['h','o','l','a']) false := by
  constructor
  · rfl
  · decide

/-- C7 (amended): for every message whose sender field is present,
`handleMessage` is a three-way case split on the text: a `/`-prefixed text
delegates entirely to the registry's `Execute` (and does nothing when no
registry is configured), never echoing; a non-empty non-command text sends
exactly one default echo reply to `message.chat.id`, with a send failure
logged but not propagated; an empty text does nothing. -/
theorem C7_handleMessage_cases (H : Type) (reg : Option (CommandRegistry H)) (msg : Message)
    (send : Except String Unit) (hfrom : msg.fromUser ≠ none) :
    (goStartsWith msg.text marker = true →
      (∀ cr : CommandRegistry H, reg = some cr →
        handleMessage reg msg send =
          HandleResult.delegated (Execute cr msg).1 (Execute cr msg).2) ∧
      (reg = none → handleMessage reg msg send = HandleResult.dropped)) ∧
    (goStartsWith msg.text marker = false → msg.text ≠ [] →
      handleMessage reg msg send =
        HandleResult.echoed msg.chat.id (echoText ++ msg.text) (isErr send)) ∧
    (msg.text = [] → handleMessage reg msg send = HandleResult.silent) := by
  obtain ⟨u, hu⟩ : ∃ u : User, msg.fromUser = some u := by
    cases h : msg.fromUser with
    | none => exact absurd h hfrom
    | some u => exact ⟨u, rfl⟩
  refine ⟨fun hc => ⟨fun cr hr => ?_, fun hr => ?_⟩, fun hc ht => ?_, fun ht => ?_⟩
  · rw [hr]
    simp [handleMessage, hu, hc]
  · rw [hr]
    simp [handleMessage, hu, hc]
  · simp [handleMessage, hu, hc, ht]
  · simp [handleMessage, hu, ht, show goStartsWith [] marker = false from rfl]

theorem C7_handleMessage_cases_witness :
    handleMessage (none : Option (CommandRegistry Nat))
      (mkMessage (some ⟨1, ['A'], [], []⟩) 5 ['h','o','l','a']) (Except.error ("boom")) =
      HandleResult.echoed 5 (echoText ++ ['h','o','l','a']) true :=
  (C7_handleMessage_cases Nat none (mkMessage (some ⟨1, ['A'], [], []⟩) 5 ['h','o','l','a'])
    (Except.error ("boom")) (by decide)).2.1 (by decide) (by decide)

theorem processBatch_eq (offset : Int) (us : List Update) :
    processBatch offset us =
      match us.getLast? with
      | none => offset
      | some u => wrap64 (u.updateID + 1) := by
  induction us generalizing offset with
  | nil => rfl
  | cons u rest ih =>
    rw [show processBatch offset (u :: rest) =
      processBatch (wrap64 (u.updateID + 1)) rest from rfl]
    rw [ih (wrap64 (u.updateID + 1))]
    cases rest with
    | nil => rfl
    | cons v vs =>
      rw [List.getLast?_cons_cons,
        List.getLast?_eq_getLast (v :: vs) (List.cons_ne_nil v vs)]

theorem processBatch_last (offset : Int) (us : List Update) (hne : us ≠ []) :
    processBatch offset us = wrap64 ((us.getLast hne).updateID + 1) := by
  rw [processBatch_eq, List.getLast?_eq_getLast us hne]

theorem wrap64_succ_eq (n : Int) (h1 : int64Min ≤ n) (h2 : n < int64Max) :
    wrap64 (n + 1) = n + 1 := by
  unfold wrap64
  unfold int64Min at h1
  unfold int64Max at h2
  omega

theorem processBatch_last_inrange (offset : Int) (us : List Update) (hne : us ≠ [])
    (hrange : ∀ u ∈ us, int64Min ≤ u.updateID ∧ u.updateID < int64Max) :
    processBatch offset us = (us.getLast hne).updateID + 1 := by
  rw [processBatch_last offset us hne]
  exact wrap64_succ_eq _ (hrange _ (List.getLast_mem hne)).1
    (hrange _ (List.getLast_mem hne)).2

theorem le_processBatch (offset : Int) (us : List Update)
    (hge : ∀ u ∈ us, offset ≤ u.updateID)
    (hrange : ∀ u ∈ us, int64Min ≤ u.updateID ∧ u.updateID < int64Max) :
    offset ≤ processBatch offset us := by
  cases us with
  | nil => exact le_refl offset
  | cons u rest =>
    rw [processBatch_last_inrange offset (u :: rest) (List.cons_ne_nil u rest) hrange]
    have hm := List.getLast_mem (List.cons_ne_nil u rest)
    have := hge _ hm
    omega

theorem le_runBatches (offset : Int) (bs : List (List Update))
    (hv : BatchesValid offset bs) : offset ≤ runBatches offset bs := by
  induction bs generalizing offset with
  | nil => exact le_refl offset
  | cons b rest ih =>
    obtain ⟨hasc, hge, hrange, hrest⟩ := hv
    calc offset ≤ processBatch offset b := le_processBatch offset b hge hrange
      _ ≤ runBatches (processBatch offset b) rest := ih (processBatch offset b) hrest
      _ = runBatches offset (b :: rest) := rfl

/-- C1 counterexample: the claim quantifies over every batch with ascending
ids at least the current offset, but `b.offset = update.UpdateID + 1` is
computed on Go's `int`: a batch containing `update_id = 2^63 - 1` — within
the claim's hypotheses at offset `0` — wraps the offset to `-2^63`, so the
offset decreases and is not the last id plus one. -/
theorem C1_offset_wrap_counterexample :
    List.Chain' (· < ·) (([⟨9223372036854775807, none⟩] : List Update).map
      (fun u => u.updateID)) ∧
    (∀ u ∈ ([⟨9223372036854775807, none⟩] : List Update), (0 : Int) ≤ u.updateID) ∧
    processBatch 0 [⟨9223372036854775807, none⟩] = -9223372036854775808 ∧
    processBatch 0 [⟨9223372036854775807, none⟩] < 0 ∧
    processBatch 0 [⟨9223372036854775807, none⟩] ≠ 9223372036854775807 + 1 := by
  refine ⟨by simp, by decide, by decide, by decide, by decide⟩

/-- C1 (amended): over a fetched batch with strictly ascending ids, all at
least the current offset and all valid `int64` values below the maximum (so
that the increment does not overflow), the loop's per-update assignments
leave the offset at the last id plus one, the offset never decreases (for
one batch, and across any number of valid loop iterations), and the next
`getUpdates` request carries exactly the resulting offset in its
parameters. -/
theorem C1_offset_monotonic (offset : Int) (updates : List Update)
    (hasc : List.Chain' (· < ·) (updates.map (fun u => u.updateID)))
    (hge : ∀ u ∈ updates, offset ≤ u.updateID)
    (hrange : ∀ u ∈ updates, int64Min ≤ u.updateID ∧ u.updateID < int64Max) :
    (∀ hne : updates ≠ [],
      processBatch offset updates = (updates.getLast hne).updateID + 1) ∧
    offset ≤ processBatch offset updates ∧
    (getUpdatesParams (processBatch offset updates)).offset = processBatch offset updates ∧
    (∀ batches : List (List Update), BatchesValid offset batches →
      offset ≤ runBatches offset batches) :=
  ⟨fun hne => processBatch_last_inrange offset updates hne hrange,
   le_processBatch offset updates hge hrange, rfl,
   fun batches hb => le_runBatches offset batches hb⟩

theorem C1_offset_monotonic_witness :
    processBatch 0 [⟨3, none⟩, ⟨7, none⟩] = 8 ∧
    (0 : Int) ≤ processBatch 0 [⟨3, none⟩, ⟨7, none⟩] ∧
    (0 : Int) ≤ runBatches 0 [[⟨3, none⟩], [⟨7, none⟩]] := by
  have h := C1_offset_monotonic 0 [⟨3, none⟩, ⟨7, none⟩] (by simp) (by decide) (by decide)
  refine ⟨(h.1 (by decide)).trans (by decide), h.2.1, ?_⟩
  exact h.2.2.2 [[⟨3, none⟩], [⟨7, none⟩]]
    ⟨by simp, by decide, by decide, by simp, by decide, by decide, trivial⟩

/-- C4: when `getUpdates` returns an error and the context is already
cancelled at that moment, the loop returns the cancellation outcome, not the
fetch error; the cancellation outcome is a constructor distinct from every
application error. -/
theorem C4_cancellation_priority (offset : Int) (inp : IterationInput)
    (rest : List IterationInput) (e : String)
    (hfetch : inp.fetch = Except.error e) (hctx : inp.errAfterFetch = true) :
    (Start (Except.ok ()) offset (inp :: rest)).1 = some StartOutcome.cancelled ∧
    ∀ e' : String, StartOutcome.cancelled ≠ StartOutcome.startupError e' := by
  constructor
  · show (startLoop offset 0 (inp :: rest)).1 = some StartOutcome.cancelled
    cases hd : inp.doneAtSelect
    · simp [startLoop, startStep, hfetch, hctx, hd]
    · simp [startLoop, startStep, hd]
  · intro e' h
    cases h

/-- Fixture: an iteration whose fetch fails with message `e`, with `c` the
cancellation state observed after the failure. -/
def iterErr (e : String) (c : Bool) : IterationInput :=
  { doneAtSelect := false, fetch := Except.error e, errAfterFetch := c }

/-- Fixture: an iteration whose fetch succeeds with the batch `us`. -/
def iterOk (us : List Update) : IterationInput :=
  { doneAtSelect := false, fetch := Except.ok us, errAfterFetch := false }

theorem C4_cancellation_priority_witness :
    (Start (Except.ok ()) 0 [iterErr ("boom") true]).1 = some StartOutcome.cancelled :=
  (C4_cancellation_priority 0 (iterErr ("boom") true) [] ("boom") rfl rfl).1

/-- C5: when the startup identity check fails, `Start` returns at once with
an error wrapping the underlying cause and issues zero `getUpdates` fetch
calls, whatever iterations the environment had in store. -/
theorem C5_startup_short_circuit (offset : Int) (inputs : List IterationInput)
    (getMe : Except String Unit) (e : String) (hfail : getMe = Except.error e) :
    Start getMe offset inputs =
      (some (StartOutcome.startupError ("error verificando bot: " ++ e)), 0) := by
  rw [hfail]
  rfl

theorem C5_startup_short_circuit_witness :
    Start (Except.error ("Unauthorized")) 0 [iterOk [⟨3, none⟩]] =
      (some (StartOutcome.startupError ("error verificando bot: " ++ "Unauthorized")), 0) :=
  C5_startup_short_circuit 0 [iterOk [⟨3, none⟩]]
    (Except.error ("Unauthorized")) ("Unauthorized") rfl

theorem startStep_ret_cancelled (offset : Int) (inp : IterationInput) (o : StartOutcome)
    (issued : Bool) (hs : startStep offset inp = StepResult.ret o issued) :
    o = StartOutcome.cancelled := by
  unfold startStep at hs
  by_cases hd : inp.doneAtSelect = true
  · rw [if_pos hd] at hs
    injection hs with h1 h2
    exact h1.symm
  · rw [if_neg hd] at hs
    cases hf : inp.fetch with
    | error e =>
      rw [hf] at hs
      by_cases hc : inp.errAfterFetch = true
      · rw [if_pos hc] at hs
        injection hs with h1 h2
        exact h1.symm
      · rw [if_neg hc] at hs
        cases hs
    | ok us =>
      rw [hf] at hs
      cases hs

theorem startLoop_outcome_cancelled (inputs : List IterationInput) :
    ∀ (offset : Int) (fetches : Nat) (o : StartOutcome),
      (startLoop offset fetches inputs).1 = some o → o = StartOutcome.cancelled := by
  induction inputs with
  | nil =>
    intro offset fetches o h
    exact absurd h (by simp [startLoop])
  | cons inp rest ih =>
    intro offset fetches o h
    unfold startLoop at h
    rcases hs : startStep offset inp with ⟨o', issued⟩ | ⟨off, slp, msgs⟩
    · rw [hs] at h
      have ho : o' = o := by simpa using h
      exact ho ▸ startStep_ret_cancelled offset inp o' issued hs
    · rw [hs] at h
      exact ih off (fetches + 1) o h

/-- C6: a fetch error with the context not cancelled makes the loop log,
sleep the fixed 3-second backoff, and retry with the offset unchanged — the
iteration never returns; and the only outcomes that ever leave `Start` are
terminal cancellation and the fatal startup verification error. -/
theorem C6_fetch_error_retry (offset : Int) (fetches : Nat) (inp : IterationInput)
    (rest : List IterationInput) (e : String)
    (hdone : inp.doneAtSelect = false) (hfetch : inp.fetch = Except.error e)
    (hctx : inp.errAfterFetch = false) :
    startStep offset inp = StepResult.cont offset backoffSeconds [] ∧
    backoffSeconds = 3 ∧
    startLoop offset fetches (inp :: rest) = startLoop offset (fetches + 1) rest ∧
    (∀ (getMe : Except String Unit) (offsetZ : Int) (inputs : List IterationInput)
      (o : StartOutcome), (Start getMe offsetZ inputs).1 = some o →
      o = StartOutcome.cancelled ∨ ∃ eZ : String, o = StartOutcome.startupError eZ) := by
  have hstep : startStep offset inp = StepResult.cont offset backoffSeconds [] := by
    unfold startStep
    rw [if_neg (by simp [hdone]), hfetch, if_neg (by simp [hctx])]
  refine ⟨hstep, rfl, ?_, ?_⟩
  · have hu : startLoop offset fetches (inp :: rest) =
        match startStep offset inp with
        | StepResult.ret o issued => (some o, fetches + (if issued then 1 else 0))
        | StepResult.cont off s t => startLoop off (fetches + 1) rest := rfl
    rw [hu, hstep]
  · intro getMe offsetZ inputs o h
    cases getMe with
    | error eg =>
      have h' : some (StartOutcome.startupError ("error verificando bot: " ++ eg)) =
          some o := h
      injection h' with h''
      exact Or.inr ⟨"error verificando bot: " ++ eg, h''.symm⟩
    | ok _ =>
      exact Or.inl (startLoop_outcome_cancelled inputs offsetZ 0 o h)

theorem C6_fetch_error_retry_witness :
    startStep 0 (iterErr ("x") false) = StepResult.cont 0 3 [] ∧
    startLoop 0 0 [iterErr ("x") false] = startLoop 0 1 [] := by
  have h := C6_fetch_error_retry 0 0 (iterErr ("x") false) [] ("x") rfl rfl rfl
  exact ⟨h.1, h.2.2.1⟩

/-- C8: a decoded envelope with `ok = false` makes `makeRequest` return an
error carrying the envelope's description, `makeRequest` never returns a
successful `Response` whose `ok` is `false`, and `getUpdates`, `SendMessage`
and `GetMe` all fail on such an envelope. -/
theorem C8_ok_false_is_error (r : Response) (hok : r.ok = false)
    (pu : String → Except String (List Update)) (pm : String → Except String User) :
    makeRequest (WireResult.envelope r) = Except.error ("API error: " ++ r.description) ∧
    (∀ (w : WireResult) (resp : Response),
      makeRequest w = Except.ok resp → resp.ok = true) ∧
    getUpdates pu (WireResult.envelope r) = Except.error ("API error: " ++ r.description) ∧
    SendMessage (WireResult.envelope r) = Except.error ("API error: " ++ r.description) ∧
    GetMe pm (WireResult.envelope r) = Except.error ("API error: " ++ r.description) := by
  have hmr : makeRequest (WireResult.envelope r) =
      Except.error ("API error: " ++ r.description) := by
    show (if (!r.ok) = true then Except.error ("API error: " ++ r.description)
      else Except.ok r) = Except.error ("API error: " ++ r.description)
    rw [hok]
    rfl
  refine ⟨hmr, ?_, ?_, ?_, ?_⟩
  · intro w resp h
    cases w with
    | marshalErr e => simp [makeRequest] at h
    | newRequestErr e => simp [makeRequest] at h
    | doErr e => simp [makeRequest] at h
    | readErr e => simp [makeRequest] at h
    | unmarshalErr e => simp [makeRequest] at h
    | envelope rZ =>
      have h' : (if (!rZ.ok) = true then Except.error ("API error: " ++ rZ.description)
          else Except.ok rZ) = Except.ok resp := h
      cases hr : rZ.ok with
      | false =>
        rw [hr] at h'
        simp at h'
      | true =>
        rw [hr] at h'
        simp at h'
        rw [← h']
        exact hr
  · unfold getUpdates
    rw [hmr]
  · unfold SendMessage
    rw [hmr]
  · unfold GetMe
    rw [hmr]

theorem C8_ok_false_is_error_witness :
    makeRequest (WireResult.envelope
      { ok := false, result := (""), description := ("Unauthorized") }) =
      Except.error ("API error: " ++ "Unauthorized") :=
  (C8_ok_false_is_error { ok := false, result := (""), description := ("Unauthorized") } rfl
    (fun _ => Except.ok []) (fun _ => Except.ok ⟨1, [], [], []⟩)).1

end TGBot
